import Mathlib

/- Verification of the realtime voice-conversation client (GOOGLE-PAL).

   The development shallowly embeds the App component of the repository:
   the PCM codec and transport encoding, the inline playback scheduler,
   the transcript model, and the session controller with its event
   handlers (handleStart, handleStop, onopen, onmessage, onerror, and
   the per-source ended listener).  Samples, clock times and durations
   are rationals; machine 16-bit integers are integers wrapped modulo
   2^16 explicitly. -/

/-- Modelled from the spec: the transport (binary-to-text) encoding of the
missing utils/audioUtils module.  The spec fixes it only as a binary-to-text
encoding such as base64 that the decoder reverses; we embed unpadded base64
over the standard alphabet. -/
def b64Alphabet : List Char :=
  "ABCDEFGHIJKLMNOPQRSTUVWXYZabcdefghijklmnopqrstuvwxyz0123456789+/".toList

/-- Character for a 6-bit group. -/
def sextetChar (n : ℕ) : Char := b64Alphabet.getD n (Char.ofNat 65)

/-- Index of a character in the base64 alphabet; none for a foreign character. -/
def charSextet (c : Char) : Option ℕ := b64Alphabet.findIdx? (· == c)

/-- Modelled from the spec: the encode function of utils/audioUtils
(bytes to transport text). -/
def encodeB64 : List ℕ → List Char
  | [] => []
  | [a] => [sextetChar (a / 4), sextetChar (a % 4 * 16)]
  | [a, b] => [sextetChar (a / 4), sextetChar (a % 4 * 16 + b / 16), sextetChar (b % 16 * 4)]
  | a :: b :: c :: rest =>
      sextetChar (a / 4) :: sextetChar (a % 4 * 16 + b / 16) ::
      sextetChar (b % 16 * 4 + c / 64) :: sextetChar (c % 64) :: encodeB64 rest

/-- Modelled from the spec: the decode function of utils/audioUtils
(transport text back to bytes); fails on malformed text. -/
def decodeB64 : List Char → Option (List ℕ)
  | [] => some []
  | [_] => none
  | [c1, c2] =>
      match charSextet c1, charSextet c2 with
      | some s1, some s2 => some [s1 * 4 + s2 / 16]
      | _, _ => none
  | [c1, c2, c3] =>
      match charSextet c1, charSextet c2, charSextet c3 with
      | some s1, some s2, some s3 => some [s1 * 4 + s2 / 16, s2 % 16 * 16 + s3 / 4]
      | _, _, _ => none
  | c1 :: c2 :: c3 :: c4 :: rest =>
      match charSextet c1, charSextet c2, charSextet c3, charSextet c4, decodeB64 rest with
      | some s1, some s2, some s3, some s4, some tl =>
          some ((s1 * 4 + s2 / 16) :: (s2 % 16 * 16 + s3 / 4) :: (s3 % 4 * 64 + s4) :: tl)
      | _, _, _, _, _ => none

/-- Truncation of a rational toward zero, as the JavaScript conversion to a
16-bit integer truncates the scaled sample (source line 173). -/
def truncQ (q : ℚ) : ℤ :=
  if 0 ≤ q.num then q.num / (q.den : ℤ) else -((-q.num) / (q.den : ℤ))

/-- Wrap an integer into the signed 16-bit range, as JavaScript does when
storing into an Int16Array. -/
def wrap16 (i : ℤ) : ℤ := (i + 32768) % 65536 - 32768

/-- The capture conversion of source line 173: multiply the sample by 32768
and store it into an Int16Array slot (truncate toward zero, wrap mod 2^16). -/
def toInt16 (x : ℚ) : ℤ := wrap16 (truncQ (x * 32768))

/-- Little-endian serialization of a signed 16-bit value into two bytes, as
laid out by the Int16Array buffer of source lines 171-176. -/
def int16Bytes (i : ℤ) : List ℕ := [((i % 65536) % 256).toNat, ((i % 65536) / 256).toNat]

/-- The encodeFrame operation of the spec, as the source performs it inline in
onaudioprocess (lines 168-177): scale, truncate to Int16, serialize
little-endian, transport-encode. -/
def encodeFrame (s : List ℚ) : List Char :=
  encodeB64 (s.flatMap fun x => int16Bytes (toInt16 x))

/-- Modelled from the spec: the sample reconstruction of decodeAudioData in
utils/audioUtils — interpret two bytes as a little-endian signed 16-bit
integer and divide by 32768. -/
def sampleOfBytes (lo hi : ℕ) : ℚ :=
  (if lo + 256 * hi < 32768 then ((lo + 256 * hi : ℕ) : ℚ)
   else ((lo + 256 * hi : ℕ) : ℚ) - 65536) / 32768

/-- Modelled from the spec: byte-pair decoding of decodeAudioData; fails when
the byte length is not a multiple of 2. -/
def samplesOfBytes : List ℕ → Option (List ℚ)
  | [] => some []
  | [_] => none
  | lo :: hi :: rest => (samplesOfBytes rest).map fun l => sampleOfBytes lo hi :: l

/-- Modelled from the spec: decodeChunk — reverse the transport encoding, then
interpret the bytes as little-endian PCM16 samples; fails with a decode error
(none) if the text is malformed or the byte count is odd. -/
def decodeChunk (text : List Char) : Option (List ℚ) :=
  (decodeB64 text).bind samplesOfBytes

/-- The result of pushing one sample through the capture quantization and the
playback reconstruction. -/
def roundSample (x : ℚ) : ℚ := (toInt16 x : ℚ) / 32768

/-- State of the inline playback scheduler of the App component: the
scheduling cursor nextAudioStartTimeRef (line 65), the tracked set
audioSourcesRef (line 64, as unit ids), units whose source nodes were
stopped but whose ended events are still deliverable, a ghost list of every
unit stopped by a stop call, a ghost history of the scheduled (start,
duration) units, and a fresh-id counter for created source nodes. -/
structure SchedSt where
  nextStart : ℚ
  tracked : List ℕ
  stoppedPending : List ℕ
  stopped : List ℕ
  sched : List (ℚ × ℚ)
  nextUid : ℕ
deriving DecidableEq

/-- The scheduler state of a freshly mounted component: cursor 0 (line 65),
nothing tracked. -/
def schedInit : SchedSt := ⟨0, [], [], [], [], 0⟩

/-- The enqueue path of onmessage (lines 201 and 205-216): lift the cursor to
the playback clock, schedule the chunk at the cursor, register the source
node, advance the cursor by the chunk duration. -/
def enqueue (st : SchedSt) (clock dur : ℚ) : SchedSt :=
  { st with
    nextStart := max st.nextStart clock + dur
    tracked := st.tracked ++ [st.nextUid]
    sched := st.sched ++ [(max st.nextStart clock, dur)]
    nextUid := st.nextUid + 1 }

/-- The interruption path of onmessage (lines 229-231), identical to the
playback teardown of handleStop (lines 117-119): stop every tracked source,
clear the tracked set, reset the cursor to 0. -/
def interruptSched (st : SchedSt) : SchedSt :=
  { st with
    nextStart := 0
    tracked := []
    stoppedPending := st.stoppedPending ++ st.tracked
    stopped := st.stopped ++ st.tracked }

/-- A run of consecutive enqueues, each supplying the playback clock value at
its handling time and the decoded chunk duration. -/
def runEnqueue (st : SchedSt) : List (ℚ × ℚ) → SchedSt
  | [] => st
  | (c, d) :: rest => runEnqueue (enqueue st c d) rest

/-- Expected gapless start times: the first at b, each later one a chunk
duration after its predecessor. -/
def startsFrom (b : ℚ) : List ℚ → List ℚ
  | [] => []
  | d :: ds => b :: startsFrom (b + d) ds

/-- The no-underrun condition: starting from cursor position b, every enqueue
finds the playback clock at or before the cursor. -/
def noUnderrunB (b : ℚ) : List (ℚ × ℚ) → Bool
  | [] => true
  | (c, d) :: rest => decide (c ≤ b) && noUnderrunB (b + d) rest

/-- Adjacent scheduled units do not overlap: each unit ends at or before the
next starts. -/
def noOverlapB : List (ℚ × ℚ) → Bool
  | [] => true
  | [_] => true
  | u :: v :: r => decide (u.1 + u.2 ≤ v.1) && noOverlapB (v :: r)

/-- Status values of the UI state machine (types.ts). -/
inductive Status where
  | IDLE
  | CONNECTING
  | LISTENING
  | SPEAKING
  | ERROR
deriving DecidableEq

/-- One conversation turn (types.ts). -/
structure ConversationTurn where
  id : ℕ
  userInput : String
  modelOutput : String
  isComplete : Bool
deriving DecidableEq

/-- A partial turn, as passed to updateTranscript: present fields override,
absent fields keep their prior or default values (JavaScript spread,
lines 81-83). -/
structure TurnPatch where
  id : ℕ
  userInput : Option String
  modelOutput : Option String
  isComplete : Option Bool
deriving DecidableEq

/-- Merging a patch into the existing turn with the same id (line 81). -/
def mergePatch (t : ConversationTurn) (p : TurnPatch) : ConversationTurn :=
  { id := p.id
    userInput := p.userInput.getD t.userInput
    modelOutput := p.modelOutput.getD t.modelOutput
    isComplete := p.isComplete.getD t.isComplete }

/-- A fresh turn from a patch, defaults empty (line 83). -/
def newTurn (p : TurnPatch) : ConversationTurn :=
  { id := p.id
    userInput := p.userInput.getD ""
    modelOutput := p.modelOutput.getD ""
    isComplete := p.isComplete.getD false }

/-- updateTranscript (lines 77-87): patch the first turn carrying the id in
place, or append a fresh turn at the end. -/
def updateTranscript : List ConversationTurn → TurnPatch → List ConversationTurn
  | [], p => [newTurn p]
  | t :: ts, p => if t.id = p.id then mergePatch t p :: ts else t :: updateTranscript ts p

/-- An inbound LiveServerMessage as onmessage reads it (lines 186-232),
together with the ambient clock values the handler samples: now is the
Date.now value (used for a fresh turn id on turn completion) and clock is
the output context currentTime (line 201). -/
structure Msg where
  inputTrans : Option String
  outputTrans : Option String
  audio : Option (List Char)
  turnComplete : Bool
  interrupted : Bool
  now : ℕ
  clock : ℚ
deriving DecidableEq

/-- The mutable state of the App component: the status and transcript React
state (lines 52-56), the mutable refs of lines 58-65 (handles embedded as
booleans: held or released; the session promise ref as sessionRef, with
connPending counting initiated connections whose callbacks are undelivered
and sessionOpen the open-session flag), the per-session accumulators and
current turn id of the start closure (lines 144-146), and the ghost list
creationIds recording every allocated turn id in allocation order. -/
structure AppState where
  status : Status
  transcript : List ConversationTurn
  errorMessage : Option String
  sessionRef : Bool
  connPending : ℕ
  sessionOpen : Bool
  inputCtx : Bool
  outputCtx : Bool
  mic : Bool
  scriptProcessor : Bool
  sched : SchedSt
  inAcc : String
  outAcc : String
  currentTurnId : ℕ
  creationIds : List ℕ
deriving DecidableEq

/-- The freshly mounted component. -/
def initState : AppState :=
  { status := Status.IDLE
    transcript := []
    errorMessage := none
    sessionRef := false
    connPending := 0
    sessionOpen := false
    inputCtx := false
    outputCtx := false
    mic := false
    scriptProcessor := false
    sched := schedInit
    inAcc := ""
    outAcc := ""
    currentTurnId := 0
    creationIds := [] }

/-- handleStop (lines 89-120): set status Idle, close and null the session
(close errors are caught and only logged, lines 95-97), disconnect and null
the script processor, stop the microphone tracks, close both audio contexts,
stop every tracked source, clear the tracked set and reset the cursor. -/
def handleStop (s : AppState) : AppState :=
  { s with
    status := Status.IDLE
    sessionRef := false
    sessionOpen := false
    scriptProcessor := false
    mic := false
    inputCtx := false
    outputCtx := false
    sched := interruptSched s.sched }

/-- The message surfaced when microphone permission is denied (line 251). -/
def micDeniedMsg : String :=
  "Microphone access was denied. Please allow microphone access in your browser settings."

/-- The message surfaced by onerror (line 236). -/
def connErrMsg : String := "An error occurred with the connection."

/-- handleStart (lines 122-259) run to completion as one handler: set status
Connecting, clear the error message and the transcript, create both audio
contexts; then either microphone access is denied (ok = false, the catch of
lines 246-258: surface a message, set status Error, leaving the contexts
held), or the stream is acquired, the per-session accumulators and the turn
id are initialized, the first turn is created, and a connection is initiated
whose callbacks arrive as later events.  No already-active check is
performed anywhere on this path.  Returns the new state and the emitted
status values. -/
def handleStart (ok : Bool) (now : ℕ) (s : AppState) : AppState × List Status :=
  let base := { s with
    status := Status.CONNECTING
    errorMessage := (none : Option String)
    transcript := ([] : List ConversationTurn)
    inputCtx := true
    outputCtx := true }
  if ok then
    ({ base with
        mic := true
        inAcc := ""
        outAcc := ""
        currentTurnId := now
        transcript := updateTranscript [] ⟨now, none, none, some false⟩
        creationIds := s.creationIds ++ [now]
        sessionRef := true
        connPending := s.connPending + 1 }, [Status.CONNECTING])
  else
    ({ base with
        status := Status.ERROR
        errorMessage := some micDeniedMsg }, [Status.CONNECTING, Status.ERROR])

/-- The onopen callback (lines 162-185): set status Listening and wire the
capture pipeline. -/
def onopen (s : AppState) : AppState × List Status :=
  ({ s with
      status := Status.LISTENING
      sessionOpen := true
      connPending := s.connPending - 1
      scriptProcessor := true }, [Status.LISTENING])

/-- Tail of onmessage after the audio block: turn completion (lines 219-225,
mark the current turn complete, reset the accumulators, allocate a fresh
turn id from the wall clock and create the next turn) and interruption
(lines 227-232). -/
def finishMessage (s : AppState) (m : Msg) (em : List Status) : AppState × List Status :=
  let s1 :=
    if m.turnComplete then
      { s with
        transcript := updateTranscript
          (updateTranscript s.transcript ⟨s.currentTurnId, none, none, some true⟩)
          ⟨m.now, none, none, some false⟩
        inAcc := ""
        outAcc := ""
        currentTurnId := m.now
        creationIds := s.creationIds ++ [m.now] }
    else s
  let s2 := if m.interrupted then { s1 with sched := interruptSched s1.sched } else s1
  (s2, em)

/-- The onmessage callback (lines 186-233) run as one handler: input
transcription fragments append to the user accumulator (lines 187-190),
output transcription fragments set status Speaking and append to the model
accumulator (lines 192-196), inbound audio lifts the cursor to the clock and
then decodes (lines 198-216; a decode failure raises out of the async
handler, so the rest of the message is skipped with the cursor already
lifted), then turn completion and interruption are handled. -/
def onmessage (s : AppState) (m : Msg) : AppState × List Status :=
  let s1 :=
    match m.inputTrans with
    | some t =>
        { s with
          inAcc := s.inAcc ++ t
          transcript := updateTranscript s.transcript
            ⟨s.currentTurnId, some (s.inAcc ++ t), none, none⟩ }
    | none => s
  let p2 :=
    match m.outputTrans with
    | some t =>
        ({ s1 with
            status := Status.SPEAKING
            outAcc := s1.outAcc ++ t
            transcript := updateTranscript s1.transcript
              ⟨s1.currentTurnId, none, some (s1.outAcc ++ t), none⟩ },
          [Status.SPEAKING])
    | none => (s1, ([] : List Status))
  match m.audio, p2.1.outputCtx with
  | some payload, true =>
      match decodeChunk payload with
      | none =>
          ({ p2.1 with
              sched := { p2.1.sched with nextStart := max p2.1.sched.nextStart m.clock } },
            p2.2)
      | some samples =>
          finishMessage
            { p2.1 with sched := enqueue p2.1.sched m.clock ((samples.length : ℚ) / 24000) }
            m p2.2
  | _, _ => finishMessage p2.1 m p2.2

/-- The ended listener attached to each source node (lines 208-213): drop the
node from the tracked set; if the set is then empty, set status Listening.
Delivering the event consumes it. -/
def onended (u : ℕ) (s : AppState) : AppState × List Status :=
  let tr := s.sched.tracked.erase u
  let s1 := { s with sched := { s.sched with
    tracked := tr
    stoppedPending := s.sched.stoppedPending.erase u } }
  if tr = [] then ({ s1 with status := Status.LISTENING }, [Status.LISTENING])
  else (s1, [])

/-- The onerror callback (lines 234-239): surface one message, set status
Error, then run handleStop, which itself sets status Idle. -/
def onerror (s : AppState) : AppState × List Status :=
  (handleStop { s with errorMessage := some connErrMsg, status := Status.ERROR },
    [Status.ERROR, Status.IDLE])

/-- The event alphabet of the embedded component: the two user actions and
the four asynchronous callbacks.  Per the single-threaded event loop, each
runs to completion as one handler. -/
inductive Ev where
  | uStart (ok : Bool) (now : ℕ)
  | uStop
  | cOpen
  | cMessage (m : Msg)
  | cEnded (u : ℕ)
  | cError

/-- One handler run, returning the new state and the emitted status values. -/
def stepEv (s : AppState) : Ev → AppState × List Status
  | Ev.uStart ok now => handleStart ok now s
  | Ev.uStop => (handleStop s, [Status.IDLE])
  | Ev.cOpen => onopen s
  | Ev.cMessage m => onmessage s m
  | Ev.cEnded u => onended u s
  | Ev.cError => onerror s

/-- Whether an event can fire in a state: the start control is rendered only
in the Idle and Error statuses and the stop control otherwise (lines
261-287); an open callback needs an initiated connection whose callbacks are
undelivered; message and error callbacks need the open session; an ended
event needs a started source whose ended event has not yet been delivered. -/
def enabledB (s : AppState) : Ev → Bool
  | Ev.uStart _ _ => decide (s.status = Status.IDLE) || decide (s.status = Status.ERROR)
  | Ev.uStop => !(decide (s.status = Status.IDLE) || decide (s.status = Status.ERROR))
  | Ev.cOpen => decide (0 < s.connPending)
  | Ev.cMessage _ => s.sessionOpen
  | Ev.cEnded u => s.sched.tracked.contains u || s.sched.stoppedPending.contains u
  | Ev.cError => s.sessionOpen

/-- The state after a trace of events. -/
def runState (s : AppState) : List Ev → AppState
  | [] => s
  | e :: evs => runState (stepEv s e).1 evs

/-- The status values emitted along a trace of events, in order. -/
def runEmits (s : AppState) : List Ev → List Status
  | [] => []
  | e :: evs => (stepEv s e).2 ++ runEmits (stepEv s e).1 evs

/-- Whether every event of a trace is enabled where it fires. -/
def okTrace (s : AppState) : List Ev → Bool
  | [] => true
  | e :: evs => enabledB s e && okTrace (stepEv s e).1 evs

/-- The status transition edges listed by the claim: Idle to Connecting,
Connecting to Listening, Connecting to Error, Listening to Speaking,
Speaking to Listening, anything to Idle, anything to Error. -/
def claimEdge : Status → Status → Bool
  | Status.IDLE, Status.CONNECTING => true
  | Status.CONNECTING, Status.LISTENING => true
  | Status.LISTENING, Status.SPEAKING => true
  | Status.SPEAKING, Status.LISTENING => true
  | _, Status.IDLE => true
  | _, Status.ERROR => true
  | _, _ => false

/-- The edges actually reachable in the embedding: the claimed ones, self
loops (no transition), and three more — Error to Connecting (the start
control is rendered again in the Error state), Idle to Listening and Error
to Listening (late open or ended callbacks surviving a stop). -/
def legalEdge (a b : Status) : Bool :=
  decide (a = b) || claimEdge a b ||
  (decide (a = Status.ERROR) && decide (b = Status.CONNECTING)) ||
  (decide (a = Status.IDLE) && decide (b = Status.LISTENING)) ||
  (decide (a = Status.ERROR) && decide (b = Status.LISTENING))

/-- Every consecutive pair along a status trace satisfies legalEdge. -/
def chainOK (a : Status) : List Status → Bool
  | [] => true
  | b :: r => legalEdge a b && chainOK b r

/-- The last status of a trace starting at a. -/
def lastStatus (a : Status) : List Status → Status
  | [] => a
  | b :: r => lastStatus b r

/-- The open-session invariant: while the session is open the status is
Listening or Speaking. -/
def invOK (s : AppState) : Bool :=
  !s.sessionOpen ||
    (decide (s.status = Status.LISTENING) || decide (s.status = Status.SPEAKING))

/-- The wall-clock sample an event carries, when it carries one. -/
def evNow : Ev → Option ℕ
  | Ev.uStart _ n => some n
  | Ev.cMessage m => some m.now
  | _ => none

/-- All wall-clock samples along a trace. -/
def nowsOf (evs : List Ev) : List ℕ := evs.filterMap evNow

/-- Whether the start control is rendered (lines 261-287): only in the Idle
and Error statuses. -/
def startShown (s : AppState) : Bool :=
  decide (s.status = Status.IDLE) || decide (s.status = Status.ERROR)

theorem charSextet_sextetChar : ∀ n < 64, charSextet (sextetChar n) = some n := by decide

theorem b64_roundtrip : ∀ bs : List ℕ, (∀ x ∈ bs, x < 256) →
    decodeB64 (encodeB64 bs) = some bs
  | [], _ => by simp [encodeB64, decodeB64]
  | [a], h => by
      have ha : a < 256 := h a (by simp)
      simp only [encodeB64, decodeB64,
        charSextet_sextetChar _ (by omega : a / 4 < 64),
        charSextet_sextetChar _ (by omega : a % 4 * 16 < 64),
        Option.some.injEq, List.cons.injEq, and_true]
      omega
  | [a, b], h => by
      have ha : a < 256 := h a (by simp)
      have hb : b < 256 := h b (by simp)
      simp only [encodeB64, decodeB64,
        charSextet_sextetChar _ (by omega : a / 4 < 64),
        charSextet_sextetChar _ (by omega : a % 4 * 16 + b / 16 < 64),
        charSextet_sextetChar _ (by omega : b % 16 * 4 < 64),
        Option.some.injEq, List.cons.injEq, and_true]
      omega
  | a :: b :: c :: rest, h => by
      have ha : a < 256 := h a (by simp)
      have hb : b < 256 := h b (by simp)
      have hc : c < 256 := h c (by simp)
      have hrest : ∀ x ∈ rest, x < 256 := fun x hx => h x (by simp [hx])
      have ih := b64_roundtrip rest hrest
      simp only [encodeB64, decodeB64,
        charSextet_sextetChar _ (by omega : a / 4 < 64),
        charSextet_sextetChar _ (by omega : a % 4 * 16 + b / 16 < 64),
        charSextet_sextetChar _ (by omega : b % 16 * 4 + c / 64 < 64),
        charSextet_sextetChar _ (by omega : c % 64 < 64), ih,
        Option.some.injEq, List.cons.injEq, and_true]
      omega

theorem truncQ_eq_floor (q : ℚ) (h : 0 ≤ q) : truncQ q = ⌊q⌋ := by
  rw [truncQ, if_pos (Rat.num_nonneg.2 h), Rat.floor_def]

theorem truncQ_eq_neg_floor_neg (q : ℚ) (h : q < 0) : truncQ q = -⌊-q⌋ := by
  have hn : ¬ 0 ≤ q.num := by
    rw [Rat.num_nonneg]
    exact not_le.2 h
  rw [truncQ, if_neg hn, Rat.floor_def]
  simp [Rat.neg_num, Rat.neg_den]

theorem abs_sub_truncQ_lt_one (q : ℚ) : |q - (truncQ q : ℚ)| < 1 := by
  rcases le_or_lt 0 q with h | h
  · rw [truncQ_eq_floor q h, abs_of_nonneg (sub_nonneg.2 (Int.floor_le q))]
    have := Int.lt_floor_add_one q
    linarith
  · rw [truncQ_eq_neg_floor_neg q h]
    push_cast
    have h1 : (⌊-q⌋ : ℚ) ≤ -q := Int.floor_le _
    have h2 : -q < ⌊-q⌋ + 1 := Int.lt_floor_add_one _
    rw [sub_neg_eq_add, abs_of_nonpos (by linarith)]
    linarith

theorem truncQ_range (q : ℚ) (h1 : -32768 ≤ q) (h2 : q < 32768) :
    -32768 ≤ truncQ q ∧ truncQ q ≤ 32767 := by
  rcases le_or_lt 0 q with h | h
  · rw [truncQ_eq_floor q h]
    have hlo : (0 : ℤ) ≤ ⌊q⌋ := Int.floor_nonneg.2 h
    have hhi : ⌊q⌋ < 32768 := Int.floor_lt.2 (by exact_mod_cast h2)
    omega
  · rw [truncQ_eq_neg_floor_neg q h]
    have hlo : (0 : ℤ) ≤ ⌊-q⌋ := Int.floor_nonneg.2 (by linarith)
    have hhi : ⌊-q⌋ ≤ 32768 := by
      have h3 : ⌊-q⌋ ≤ ⌊(32768 : ℚ)⌋ := Int.floor_le_floor (by linarith)
      simpa using h3
    omega

theorem wrap16_eq_self (i : ℤ) (h1 : -32768 ≤ i) (h2 : i ≤ 32767) : wrap16 i = i := by
  unfold wrap16
  omega

theorem wrap16_range (i : ℤ) : -32768 ≤ wrap16 i ∧ wrap16 i ≤ 32767 := by
  unfold wrap16
  omega

theorem int16Bytes_lt (i : ℤ) : ∀ b ∈ int16Bytes i, b < 256 := by
  unfold int16Bytes
  intro b hb
  simp only [List.mem_cons, List.not_mem_nil, or_false] at hb
  rcases hb with h | h <;> omega

theorem sampleOfBytes_int16 (i : ℤ) (h1 : -32768 ≤ i) (h2 : i ≤ 32767) :
    sampleOfBytes (((i % 65536) % 256).toNat) (((i % 65536) / 256).toNat)
      = (i : ℚ) / 32768 := by
  have hn : ((i % 65536) % 256).toNat + 256 * ((i % 65536) / 256).toNat
      = (i % 65536).toNat := by omega
  unfold sampleOfBytes
  rw [hn]
  rcases le_or_lt 0 i with hi | hi
  · have he : ((i % 65536).toNat : ℤ) = i := by omega
    rw [if_pos (by omega)]
    congr 1
    exact_mod_cast he
  · have he : ((i % 65536).toNat : ℤ) = i + 65536 := by omega
    rw [if_neg (by omega)]
    congr 1
    have hc : ((i % 65536).toNat : ℚ) = (i : ℚ) + 65536 := by exact_mod_cast he
    rw [hc]
    ring

theorem toInt16_range (x : ℚ) : -32768 ≤ toInt16 x ∧ toInt16 x ≤ 32767 :=
  wrap16_range (truncQ (x * 32768))

theorem samplesOfBytes_pairs : ∀ s : List ℚ,
    samplesOfBytes (s.flatMap fun x => int16Bytes (toInt16 x)) = some (s.map roundSample)
  | [] => by simp [samplesOfBytes]
  | x :: xs => by
      have hr := toInt16_range x
      have ih := samplesOfBytes_pairs xs
      show samplesOfBytes ((toInt16 x % 65536 % 256).toNat
          :: (toInt16 x % 65536 / 256).toNat
          :: xs.flatMap fun y => int16Bytes (toInt16 y)) = _
      rw [samplesOfBytes, ih]
      simp only [Option.map_some, List.map_cons]
      rw [sampleOfBytes_int16 (toInt16 x) hr.1 hr.2]
      rfl

theorem decode_encodeFrame (s : List ℚ) :
    decodeChunk (encodeFrame s) = some (s.map roundSample) := by
  unfold decodeChunk encodeFrame
  rw [b64_roundtrip _ (by
    intro x hx
    simp only [List.mem_flatMap] at hx
    obtain ⟨y, _, hy⟩ := hx
    exact int16Bytes_lt _ x hy)]
  simp only [Option.some_bind]
  exact samplesOfBytes_pairs s

theorem toInt16_eq_trunc (x : ℚ) (h1 : -1 ≤ x) (h2 : x < 1) :
    toInt16 x = truncQ (x * 32768) := by
  have hr := truncQ_range (x * 32768) (by linarith) (by linarith)
  exact wrap16_eq_self _ hr.1 hr.2

theorem roundSample_close (x : ℚ) (h1 : -1 ≤ x) (h2 : x < 1) :
    |roundSample x - x| ≤ 1 / 32768 := by
  unfold roundSample
  rw [toInt16_eq_trunc x h1 h2]
  have hb := abs_sub_truncQ_lt_one (x * 32768)
  have he : (truncQ (x * 32768) : ℚ) / 32768 - x
      = ((truncQ (x * 32768) : ℚ) - x * 32768) / 32768 := by ring
  rw [he, abs_div, abs_of_pos (show (0 : ℚ) < 32768 by norm_num),
    div_le_div_iff_of_pos_right (show (0 : ℚ) < 32768 by norm_num)]
  rw [abs_sub_comm] at hb
  linarith

/-- C6 (amended): for every nonempty sample list with each sample in the
half-open range [-1, 1), decoding the encoded frame recovers the samples
within PCM16 quantization error — each decoded sample differs from the
original by at most 1/32768.  (At the endpoint sample 1 the scaled value
32768 wraps to -32768 per the 16-bit store, so the claimed closed range
[-1, 1] fails; see the counterexample.) -/
theorem c6_codec_roundtrip (s : List ℚ) (_hne : s ≠ [])
    (hb : ∀ x ∈ s, -1 ≤ x ∧ x < 1) :
    decodeChunk (encodeFrame s) = some (s.map roundSample) ∧
    List.Forall₂ (fun o x => |o - x| ≤ 1 / 32768) (s.map roundSample) s := by
  refine ⟨decode_encodeFrame s, ?_⟩
  clear _hne
  induction s with
  | nil => simp
  | cons x xs ih =>
      simp only [List.map_cons]
      refine List.Forall₂.cons ?_ (ih fun y hy => hb y (by simp [hy]))
      have hx := hb x (by simp)
      exact roundSample_close x hx.1 hx.2

/-- Witness for C6: the single-sample frame at 1/2 round-trips exactly. -/
theorem c6_codec_roundtrip_witness :
    decodeChunk (encodeFrame [(1 : ℚ) / 2]) = some ([(1 : ℚ) / 2].map roundSample) ∧
    List.Forall₂ (fun o x => |o - x| ≤ 1 / 32768)
      ([(1 : ℚ) / 2].map roundSample) [(1 : ℚ) / 2] :=
  c6_codec_roundtrip [(1 : ℚ) / 2] (by simp)
    (by
      intro x hx
      rw [List.mem_singleton] at hx
      subst hx
      exact ⟨by norm_num, by norm_num⟩)

/-- Counterexample to C6 as stated: at the sample 1, inside the claimed
closed range [-1, 1], the scaled value 32768 wraps to -32768, the decoded
sample is -1, and the per-sample error 2 exceeds 1/32768. -/
theorem c6_counterexample :
    decodeChunk (encodeFrame [(1 : ℚ)]) = some [(-1 : ℚ)] ∧
    ¬ (|(-1 : ℚ) - 1| ≤ 1 / 32768) := by
  constructor
  · with_unfolding_all decide
  · with_unfolding_all decide

theorem runEnqueue_gapless : ∀ (rest : List (ℚ × ℚ)) (st : SchedSt),
    noUnderrunB st.nextStart rest = true →
    ((runEnqueue st rest).sched).map Prod.fst
      = (st.sched.map Prod.fst) ++ startsFrom st.nextStart (rest.map Prod.snd)
  | [], st, _ => by simp [runEnqueue, startsFrom]
  | (c, d) :: rest, st, h => by
      simp only [noUnderrunB, Bool.and_eq_true, decide_eq_true_eq] at h
      have hmax : max st.nextStart c = st.nextStart := max_eq_left h.1
      have ih := runEnqueue_gapless rest (enqueue st c d) (by
        show noUnderrunB (max st.nextStart c + d) rest = true
        rw [hmax]
        exact h.2)
      rw [runEnqueue, ih]
      simp only [enqueue, hmax, List.map_append, List.map_cons, List.map_nil,
        startsFrom, List.append_assoc, List.cons_append, List.nil_append]

theorem noOverlapB_append_one : ∀ (l : List (ℚ × ℚ)) (u : ℚ × ℚ),
    noOverlapB l = true → (∀ v, l.getLast? = some v → v.1 + v.2 ≤ u.1) →
    noOverlapB (l ++ [u]) = true
  | [], u, _, _ => by simp [noOverlapB]
  | [w], u, _, h2 => by
      have hw := h2 w rfl
      simp [noOverlapB, hw]
  | w :: v :: r, u, h, h2 => by
      simp only [noOverlapB, Bool.and_eq_true, decide_eq_true_eq] at h
      have ih := noOverlapB_append_one (v :: r) u h.2 (fun x hx => h2 x (by
        rw [List.getLast?_cons_cons]
        exact hx))
      simp only [List.cons_append, noOverlapB, Bool.and_eq_true, decide_eq_true_eq]
      exact ⟨h.1, ih⟩

theorem noOverlap_runEnqueue : ∀ (L : List (ℚ × ℚ)) (st : SchedSt),
    noOverlapB st.sched = true →
    (∀ v, st.sched.getLast? = some v → v.1 + v.2 ≤ st.nextStart) →
    noOverlapB ((runEnqueue st L).sched) = true
  | [], _, h, _ => h
  | (c, d) :: rest, st, h, h2 => by
      apply noOverlap_runEnqueue rest (enqueue st c d)
      · apply noOverlapB_append_one _ _ h
        intro v hv
        have hm : st.nextStart ≤ max st.nextStart c := le_max_left _ _
        have := h2 v hv
        linarith
      · intro v hv
        simp only [enqueue, List.getLast?_concat, Option.some.injEq] at hv
        subst hv
        exact le_refl _

/-- C1 (amended): for a sequence of chunks enqueued from a fresh scheduler
without interruption, when the playback clock never overtakes the cursor
(each later enqueue happens at a clock value at or before the cursor), the
k-th scheduled start time is t0 plus the sum of the earlier durations, where
t0 is the clock at the first enqueue — back-to-back gapless scheduling with
no overlap.  The closed formula of the claim, max(t0, d1 + ... + d(k-1)),
does not hold (see the counterexample); the correct anchor adds t0. -/
theorem c1_scheduler_gapless (t0 d : ℚ) (rest : List (ℚ × ℚ)) (h0 : 0 ≤ t0)
    (hnu : noUnderrunB (t0 + d) rest = true) :
    ((runEnqueue schedInit ((t0, d) :: rest)).sched).map Prod.fst
      = startsFrom t0 (d :: rest.map Prod.snd) ∧
    noOverlapB ((runEnqueue schedInit ((t0, d) :: rest)).sched) = true := by
  constructor
  · rw [runEnqueue]
    have h1 : enqueue schedInit t0 d = ⟨t0 + d, [0], [], [], [(t0, d)], 1⟩ := by
      simp [enqueue, schedInit, max_eq_right h0]
    rw [h1, runEnqueue_gapless rest _ (by simpa using hnu)]
    simp [startsFrom]
  · apply noOverlap_runEnqueue
    · rfl
    · intro v hv
      simp [schedInit] at hv

/-- Witness for C1 at t0 = 1 and durations 1 and 2, the second enqueue
arriving with the clock still at 1. -/
theorem c1_scheduler_gapless_witness :
    ((runEnqueue schedInit (((1 : ℚ), (1 : ℚ)) :: [((1 : ℚ), (2 : ℚ))])).sched).map Prod.fst
      = startsFrom 1 (1 :: [((1 : ℚ), (2 : ℚ))].map Prod.snd) ∧
    noOverlapB ((runEnqueue schedInit (((1 : ℚ), (1 : ℚ)) :: [((1 : ℚ), (2 : ℚ))])).sched)
      = true :=
  c1_scheduler_gapless 1 1 [(1, 2)] (by norm_num) (by with_unfolding_all decide)

/-- Counterexample to C1 as stated: two chunks of duration 1 enqueued with
the clock at 1 give the second unit the start time 2 (= t0 + d1), but the
claimed closed formula max(t0, d1) yields max 1 1 = 1. -/
theorem c1_counterexample :
    ((runEnqueue schedInit [((1 : ℚ), (1 : ℚ)), ((1 : ℚ), (1 : ℚ))]).sched).map Prod.fst
      = [1, 2] ∧
    max (1 : ℚ) 1 = 1 ∧ ((2 : ℚ)) ≠ max (1 : ℚ) 1 := by
  refine ⟨by with_unfolding_all decide, by with_unfolding_all decide,
    by with_unfolding_all decide⟩

/-- C2: the interrupted branch of onmessage (lines 227-232) stops every
tracked playback unit, empties the tracked set and resets the cursor to 0,
so that a following enqueue schedules at max(0, clock), at or after the
clock, rather than at a stale future cursor. -/
theorem c2_interrupt_clears (s : AppState) (st : SchedSt) (t dur : ℚ) :
    (onmessage s ⟨none, none, none, false, true, 0, 0⟩).1.sched = interruptSched s.sched ∧
    (interruptSched st).tracked = [] ∧
    (interruptSched st).nextStart = 0 ∧
    (interruptSched st).stopped = st.stopped ++ st.tracked ∧
    (enqueue (interruptSched st) t dur).sched
      = (interruptSched st).sched ++ [(max 0 t, dur)] ∧
    t ≤ max 0 t := by
  refine ⟨?_, rfl, rfl, rfl, ?_, le_max_right 0 t⟩
  · cases h : s.outputCtx <;>
      simp [onmessage, finishMessage, h]
  · simp [enqueue, interruptSched]

theorem finishMessage_frame (s : AppState) (m : Msg) (em : List Status) :
    (finishMessage s m em).1.status = s.status ∧
    (finishMessage s m em).2 = em ∧
    (finishMessage s m em).1.sessionOpen = s.sessionOpen := by
  unfold finishMessage
  cases m.turnComplete <;> cases m.interrupted <;> simp

theorem onmessage_status (s : AppState) (m : Msg) :
    (onmessage s m).1.status = (if m.outputTrans.isSome then Status.SPEAKING else s.status) ∧
    (onmessage s m).2 = (if m.outputTrans.isSome then [Status.SPEAKING] else []) ∧
    (onmessage s m).1.sessionOpen = s.sessionOpen := by
  rcases m with ⟨it, ot, au, tc, intr, now, clk⟩
  rcases it with _ | t1 <;> rcases ot with _ | t2 <;> rcases au with _ | payload <;>
    cases hctx : s.outputCtx <;>
    cases tc <;> cases intr <;>
    first
    | (cases hdec : decodeChunk payload <;>
        simp [onmessage, finishMessage, hctx, hdec])
    | simp [onmessage, finishMessage, hctx]

theorem find_updateTranscript : ∀ (tr : List ConversationTurn) (p : TurnPatch) (u : String),
    p.userInput = some u →
    ∃ tu, (updateTranscript tr p).find? (fun x => decide (x.id = p.id)) = some tu ∧
      tu.userInput = u ∧ tu.id = p.id
  | [], p, u, hp => by
      refine ⟨newTurn p, ?_, ?_, rfl⟩
      · simp [updateTranscript, List.find?, newTurn]
      · simp [newTurn, hp]
  | t :: ts, p, u, hp => by
      by_cases h : t.id = p.id
      · refine ⟨mergePatch t p, ?_, ?_, rfl⟩
        · simp [updateTranscript, h, List.find?, mergePatch]
        · simp [mergePatch, hp]
      · obtain ⟨tu, htu, hu, hid⟩ := find_updateTranscript ts p u hp
        refine ⟨tu, ?_, hu, hid⟩
        simp [updateTranscript, h, List.find?, htu]

/-- C4: handleStop is idempotent and safe from any state: a second call
yields exactly the same state as the first, which has status Idle, no
tracked playback units, scheduling cursor 0, and the session, microphone,
audio context and script processor handles all released.  The embedded
handler is total — close errors are caught and only logged in the source
(lines 95-97) — so the second call raises no error. -/
theorem c4_stop_idempotent (s : AppState) :
    handleStop (handleStop s) = handleStop s ∧
    (handleStop s).status = Status.IDLE ∧
    (handleStop s).sched.tracked = [] ∧
    (handleStop s).sched.nextStart = 0 ∧
    (handleStop s).sessionRef = false ∧
    (handleStop s).mic = false ∧
    (handleStop s).inputCtx = false ∧
    (handleStop s).outputCtx = false ∧
    (handleStop s).scriptProcessor = false := by
  refine ⟨?_, rfl, rfl, rfl, rfl, rfl, rfl, rfl, rfl⟩
  simp [handleStop, interruptSched]

/-- C9 (amended): the onerror handler surfaces exactly one user-visible
message and transitions status to Error, then performs the same cleanup as
stop; since that cleanup itself sets status Idle first thing (line 90), the
status after the whole handler is Idle, not Error — the handler passes
through Error and ends at Idle, with the message retained and every
resource released. -/
theorem c9_onerror_cleanup (s : AppState) :
    (onerror s).2 = [Status.ERROR, Status.IDLE] ∧
    (onerror s).1
      = handleStop { s with errorMessage := some connErrMsg, status := Status.ERROR } ∧
    (onerror s).1.status = Status.IDLE ∧
    (onerror s).1.errorMessage = some connErrMsg ∧
    (onerror s).1.sessionRef = false ∧
    (onerror s).1.sessionOpen = false ∧
    (onerror s).1.mic = false ∧
    (onerror s).1.inputCtx = false ∧
    (onerror s).1.outputCtx = false ∧
    (onerror s).1.scriptProcessor = false ∧
    (onerror s).1.sched.tracked = [] ∧
    (onerror s).1.sched.nextStart = 0 :=
  ⟨rfl, rfl, rfl, rfl, rfl, rfl, rfl, rfl, rfl, rfl, rfl, rfl⟩

/-- Counterexample to C9 as stated: starting from the reachable open
session, the connection-error handler completes with status Idle, not
Error — the stop cleanup it runs last overwrites the Error status. -/
theorem c9_counterexample :
    okTrace initState [Ev.uStart true 1, Ev.cOpen] = true ∧
    (onerror (runState initState [Ev.uStart true 1, Ev.cOpen])).1.status = Status.IDLE ∧
    Status.IDLE ≠ Status.ERROR := by
  exact ⟨by with_unfolding_all decide, by with_unfolding_all decide, by decide⟩

/-- C7: an inbound audio-data message whose payload fails to decode (the
transport decode fails, or the byte count is odd) is dropped: the status,
the open-session flag, the transcript, the tracked playback units and the
scheduled units are all unchanged and nothing is emitted — the decode
failure neither tears down the session nor changes status.  (The scheduler
cursor may have been lifted to the current clock, as line 201 runs before
the decode.) -/
theorem c7_decode_error_contained (s : AppState) (payload : List Char) (clock : ℚ)
    (hdec : decodeChunk payload = none) :
    (onmessage s ⟨none, none, some payload, false, false, 0, clock⟩).1.status = s.status ∧
    (onmessage s ⟨none, none, some payload, false, false, 0, clock⟩).1.sessionOpen
      = s.sessionOpen ∧
    (onmessage s ⟨none, none, some payload, false, false, 0, clock⟩).1.transcript
      = s.transcript ∧
    (onmessage s ⟨none, none, some payload, false, false, 0, clock⟩).1.sched.tracked
      = s.sched.tracked ∧
    (onmessage s ⟨none, none, some payload, false, false, 0, clock⟩).1.sched.sched
      = s.sched.sched ∧
    (onmessage s ⟨none, none, some payload, false, false, 0, clock⟩).2 = [] := by
  cases h : s.outputCtx <;>
    simp [onmessage, finishMessage, h, hdec]

/-- Witness for C7: a one-character payload is malformed transport text and
is dropped in the initial state with the clock at 5. -/
theorem c7_decode_error_contained_witness :
    (onmessage initState ⟨none, none, some "!".toList, false, false, 0, 5⟩).1.status
      = initState.status ∧
    (onmessage initState ⟨none, none, some "!".toList, false, false, 0, 5⟩).1.sessionOpen
      = initState.sessionOpen ∧
    (onmessage initState ⟨none, none, some "!".toList, false, false, 0, 5⟩).1.transcript
      = initState.transcript ∧
    (onmessage initState ⟨none, none, some "!".toList, false, false, 0, 5⟩).1.sched.tracked
      = initState.sched.tracked ∧
    (onmessage initState ⟨none, none, some "!".toList, false, false, 0, 5⟩).1.sched.sched
      = initState.sched.sched ∧
    (onmessage initState ⟨none, none, some "!".toList, false, false, 0, 5⟩).2 = [] :=
  c7_decode_error_contained initState "!".toList 5 (by with_unfolding_all decide)

/-- C10: an input-transcription fragment appends its text to the user-input
accumulator and writes the accumulated text into the current turn, emits no
status and leaves the status unchanged; and the only way any message moves
the status to Speaking is by carrying an output-transcription fragment. -/
theorem c10_input_fragment_frame (s : AppState) (t : String) (m : Msg) :
    (onmessage s ⟨some t, none, none, false, false, 0, 0⟩).1.status = s.status ∧
    (onmessage s ⟨some t, none, none, false, false, 0, 0⟩).2 = [] ∧
    (onmessage s ⟨some t, none, none, false, false, 0, 0⟩).1.inAcc = s.inAcc ++ t ∧
    (onmessage s ⟨some t, none, none, false, false, 0, 0⟩).1.transcript
      = updateTranscript s.transcript ⟨s.currentTurnId, some (s.inAcc ++ t), none, none⟩ ∧
    (∃ tu, ((onmessage s ⟨some t, none, none, false, false, 0, 0⟩).1.transcript).find?
        (fun x => decide (x.id = s.currentTurnId)) = some tu ∧
      tu.userInput = s.inAcc ++ t) ∧
    ((onmessage s m).1.status = Status.SPEAKING →
      s.status = Status.SPEAKING ∨ m.outputTrans ≠ none) := by
  refine ⟨?_, ?_, ?_, ?_, ?_, ?_⟩
  · cases h : s.outputCtx <;> simp [onmessage, finishMessage, h]
  · cases h : s.outputCtx <;> simp [onmessage, finishMessage, h]
  · cases h : s.outputCtx <;> simp [onmessage, finishMessage, h]
  · cases h : s.outputCtx <;> simp [onmessage, finishMessage, h]
  · obtain ⟨tu, htu, hu, hid⟩ := find_updateTranscript s.transcript
      ⟨s.currentTurnId, some (s.inAcc ++ t), none, none⟩ (s.inAcc ++ t) rfl
    refine ⟨tu, ?_, hu⟩
    have htr : (onmessage s ⟨some t, none, none, false, false, 0, 0⟩).1.transcript
        = updateTranscript s.transcript ⟨s.currentTurnId, some (s.inAcc ++ t), none, none⟩ := by
      cases h : s.outputCtx <;> simp [onmessage, finishMessage, h]
    rw [htr]
    exact htu
  · intro hsp
    have h := (onmessage_status s m).1
    by_cases hout : m.outputTrans.isSome
    · right
      rcases ho : m.outputTrans with _ | t2
      · rw [ho] at hout
        simp at hout
      · simp
    · left
      rw [if_neg hout] at h
      rw [← h]
      exact hsp

/-- Witness for C10: in the initial state, the fragment hi leaves the
status Idle, and a message carrying an output fragment that sets status
Speaking indeed has a nonempty output-fragment field. -/
theorem c10_input_fragment_frame_witness :
    (onmessage initState ⟨some "hi", none, none, false, false, 0, 0⟩).1.status
      = initState.status ∧
    (initState.status = Status.SPEAKING ∨
      (⟨none, some "x", none, false, false, 0, 0⟩ : Msg).outputTrans ≠ none) := by
  refine ⟨(c10_input_fragment_frame initState "hi"
    ⟨none, some "x", none, false, false, 0, 0⟩).1, ?_⟩
  exact (c10_input_fragment_frame initState "hi"
    ⟨none, some "x", none, false, false, 0, 0⟩).2.2.2.2.2
    (by with_unfolding_all decide)

theorem step_legal (s : AppState) (e : Ev) (hinv : invOK s = true)
    (hen : enabledB s e = true) :
    chainOK s.status (stepEv s e).2 = true ∧
    (stepEv s e).1.status = lastStatus s.status (stepEv s e).2 ∧
    invOK (stepEv s e).1 = true := by
  cases e with
  | uStart ok now =>
      simp only [enabledB, Bool.or_eq_true, decide_eq_true_eq] at hen
      have hopen : s.sessionOpen = false := by
        cases hso : s.sessionOpen
        · rfl
        · exfalso
          rcases hen with h | h <;> simp [invOK, hso, h] at hinv
      cases ok <;> rcases hen with h | h <;>
        simp [stepEv, handleStart, chainOK, legalEdge, claimEdge, lastStatus, invOK,
          h, hopen]
  | uStop =>
      cases hst : s.status <;>
        simp [stepEv, handleStop, chainOK, legalEdge, claimEdge, lastStatus, invOK]
  | cOpen =>
      cases hst : s.status <;>
        simp [stepEv, onopen, chainOK, legalEdge, claimEdge, lastStatus, invOK]
  | cMessage m =>
      have hms := onmessage_status s m
      simp only [enabledB] at hen
      have hLS : s.status = Status.LISTENING ∨ s.status = Status.SPEAKING := by
        simp only [invOK, hen, Bool.not_true, Bool.false_or, Bool.or_eq_true,
          decide_eq_true_eq] at hinv
        exact hinv
      cases hout : m.outputTrans.isSome <;> rcases hLS with h | h <;>
        simp [stepEv, hms.1, hms.2.1, hms.2.2, hout, chainOK, legalEdge, claimEdge,
          lastStatus, invOK, h, hen]
  | cEnded u =>
      by_cases htr : s.sched.tracked.erase u = []
      · cases hst : s.status <;>
          simp [stepEv, onended, htr, chainOK, legalEdge, claimEdge, lastStatus, invOK]
      · have hgoal : s.sessionOpen = false ∨ s.status = Status.LISTENING
            ∨ s.status = Status.SPEAKING := by
          cases hso : s.sessionOpen
          · exact Or.inl rfl
          · right
            simpa only [invOK, hso, Bool.not_true, Bool.false_or, Bool.or_eq_true,
              decide_eq_true_eq] using hinv
        simp [stepEv, onended, htr, chainOK, legalEdge, claimEdge, lastStatus, invOK,
          hgoal]
  | cError =>
      cases hst : s.status <;>
        simp [stepEv, onerror, handleStop, chainOK, legalEdge, claimEdge, lastStatus,
          invOK]

theorem chainOK_append : ∀ (xs : List Status) (a : Status) (ys : List Status),
    chainOK a (xs ++ ys) = (chainOK a xs && chainOK (lastStatus a xs) ys)
  | [], a, ys => by simp [chainOK, lastStatus]
  | b :: xs, a, ys => by
      simp [chainOK, lastStatus, chainOK_append xs b ys, Bool.and_assoc]

theorem runEmits_legal : ∀ (evs : List Ev) (s : AppState), invOK s = true →
    okTrace s evs = true → chainOK s.status (runEmits s evs) = true
  | [], _, _, _ => rfl
  | e :: evs, s, hinv, hok => by
      simp only [okTrace, Bool.and_eq_true] at hok
      have hstep := step_legal s e hinv hok.1
      have ih := runEmits_legal evs (stepEv s e).1 hstep.2.2 hok.2
      rw [runEmits, chainOK_append]
      rw [hstep.2.1] at ih
      simp [hstep.1, ih]

theorem invOK_run : ∀ (evs : List Ev) (s : AppState), invOK s = true →
    okTrace s evs = true → invOK (runState s evs) = true
  | [], _, hinv, _ => hinv
  | e :: evs, s, hinv, hok => by
      simp only [okTrace, Bool.and_eq_true] at hok
      exact invOK_run evs _ (step_legal s e hinv hok.1).2.2 hok.2

/-- C3 (amended): along every trace of enabled events from the initial
state, consecutive statuses follow only the claimed edges — Idle→Connecting,
Connecting→Listening, Connecting→Error, Listening→Speaking,
Speaking→Listening, any→Idle, any→Error — plus three reachable extras the
claim omits: Error→Connecting (the start control is rendered again in the
Error state), and Idle→Listening and Error→Listening (late open or
playback-ended callbacks surviving a stop). -/
theorem c3_status_transitions (evs : List Ev) (hok : okTrace initState evs = true) :
    chainOK initState.status (runEmits initState evs) = true :=
  runEmits_legal evs initState rfl hok

/-- Witness for C3: a successful start followed by the open callback. -/
theorem c3_status_transitions_witness :
    chainOK initState.status (runEmits initState [Ev.uStart true 1, Ev.cOpen]) = true :=
  c3_status_transitions [Ev.uStart true 1, Ev.cOpen] (by with_unfolding_all decide)

/-- Counterexample to C3 as stated: after a failed start the status is
Error, the start control is rendered again, and pressing it emits
Connecting — the consecutive pair Error→Connecting is not among the claimed
edges. -/
theorem c3_counterexample :
    okTrace initState [Ev.uStart false 1, Ev.uStart true 2] = true ∧
    runEmits initState [Ev.uStart false 1, Ev.uStart true 2]
      = [Status.CONNECTING, Status.ERROR, Status.CONNECTING] ∧
    claimEdge Status.ERROR Status.CONNECTING = false ∧
    Status.ERROR ≠ Status.CONNECTING := by
  exact ⟨by with_unfolding_all decide, by with_unfolding_all decide, by decide, by decide⟩

/-- C5 (amended): the code has no AlreadyActiveError — handleStart performs
no already-active check.  Invoked while a session is open it does not fail
and does change state: status becomes Connecting, the transcript is reset to
one fresh turn, the error message is cleared, one more connection is
initiated, and the open session is left open (only a later stop closes it).
The sole protection is the UI: along reachable traces, whenever the session
is open the start control is not rendered. -/
theorem c5_no_already_active_check (s : AppState) (now : ℕ) (evs : List Ev)
    (hopen : s.sessionOpen = true) (hok : okTrace initState evs = true)
    (hopen2 : (runState initState evs).sessionOpen = true) :
    (handleStart true now s).1.status = Status.CONNECTING ∧
    (handleStart true now s).1.transcript = [⟨now, "", "", false⟩] ∧
    (handleStart true now s).1.errorMessage = none ∧
    (handleStart true now s).1.sessionOpen = true ∧
    (handleStart true now s).1.connPending = s.connPending + 1 ∧
    startShown (runState initState evs) = false := by
  refine ⟨rfl, ?_, rfl, by simp [handleStart, hopen], rfl, ?_⟩
  · simp [handleStart, updateTranscript, newTurn]
  · have hinv := invOK_run evs initState rfl hok
    simp only [invOK, hopen2, Bool.not_true, Bool.false_or, Bool.or_eq_true,
      decide_eq_true_eq] at hinv
    rcases hinv with h | h <;> simp [startShown, h]

/-- Witness for C5: in the reachable open session after a successful start
and open, handleStart at clock 2 proceeds and the start control is hidden. -/
theorem c5_no_already_active_check_witness :
    (handleStart true 2 (runState initState [Ev.uStart true 1, Ev.cOpen])).1.status
      = Status.CONNECTING ∧
    (handleStart true 2 (runState initState [Ev.uStart true 1, Ev.cOpen])).1.transcript
      = [⟨2, "", "", false⟩] ∧
    (handleStart true 2 (runState initState [Ev.uStart true 1, Ev.cOpen])).1.errorMessage
      = none ∧
    (handleStart true 2 (runState initState [Ev.uStart true 1, Ev.cOpen])).1.sessionOpen
      = true ∧
    (handleStart true 2 (runState initState [Ev.uStart true 1, Ev.cOpen])).1.connPending
      = (runState initState [Ev.uStart true 1, Ev.cOpen]).connPending + 1 ∧
    startShown (runState initState [Ev.uStart true 1, Ev.cOpen]) = false :=
  c5_no_already_active_check (runState initState [Ev.uStart true 1, Ev.cOpen]) 2
    [Ev.uStart true 1, Ev.cOpen] (by with_unfolding_all decide)
    (by with_unfolding_all decide) (by with_unfolding_all decide)

/-- Counterexample to C5 as stated: in the reachable state with an open
session, calling start neither fails nor leaves the state unchanged — the
status moves from Listening to Connecting. -/
theorem c5_counterexample :
    (runState initState [Ev.uStart true 1, Ev.cOpen]).sessionOpen = true ∧
    (runState initState [Ev.uStart true 1, Ev.cOpen]).status = Status.LISTENING ∧
    (handleStart true 2 (runState initState [Ev.uStart true 1, Ev.cOpen])).1.status
      = Status.CONNECTING ∧
    Status.CONNECTING ≠ Status.LISTENING := by
  exact ⟨by with_unfolding_all decide, by with_unfolding_all decide,
    by with_unfolding_all decide, by decide⟩

theorem onmessage_creationIds (s : AppState) (m : Msg) :
    (onmessage s m).1.creationIds = s.creationIds ∨
    (onmessage s m).1.creationIds = s.creationIds ++ [m.now] := by
  rcases m with ⟨it, ot, au, tc, intr, now, clk⟩
  rcases it with _ | t1 <;> rcases ot with _ | t2 <;> rcases au with _ | payload <;>
    cases hctx : s.outputCtx <;>
    cases tc <;> cases intr <;>
    first
    | (cases hdec : decodeChunk payload <;>
        simp [onmessage, finishMessage, hctx, hdec])
    | simp [onmessage, finishMessage, hctx]

theorem creationIds_step (s : AppState) (e : Ev) :
    (stepEv s e).1.creationIds = s.creationIds ∨
    ∃ n, (stepEv s e).1.creationIds = s.creationIds ++ [n] ∧ evNow e = some n := by
  cases e with
  | uStart ok now =>
      cases ok
      · exact Or.inl rfl
      · exact Or.inr ⟨now, rfl, rfl⟩
  | uStop => exact Or.inl rfl
  | cOpen => exact Or.inl rfl
  | cEnded u =>
      left
      by_cases htr : s.sched.tracked.erase u = [] <;> simp [stepEv, onended, htr]
  | cError => exact Or.inl rfl
  | cMessage m =>
      rcases onmessage_creationIds s m with h | h
      · exact Or.inl h
      · exact Or.inr ⟨m.now, h, rfl⟩

theorem creationIds_sublist : ∀ (evs : List Ev) (s : AppState),
    ∃ X, (runState s evs).creationIds = s.creationIds ++ X ∧ X.Sublist (nowsOf evs)
  | [], s => ⟨[], by simp [runState], by simp [nowsOf]⟩
  | e :: evs, s => by
      obtain ⟨X, hX, hsub⟩ := creationIds_sublist evs (stepEv s e).1
      rcases creationIds_step s e with h | ⟨n, h, hn⟩
      · refine ⟨X, ?_, ?_⟩
        · rw [runState, hX, h]
        · apply hsub.trans
          cases hev : evNow e <;>
            simp [nowsOf, List.filterMap_cons, hev, List.sublist_cons_self,
              List.Sublist.refl]
      · refine ⟨n :: X, ?_, ?_⟩
        · rw [runState, hX, h, List.append_assoc]
          rfl
        · show (n :: X).Sublist (List.filterMap evNow (e :: evs))
          rw [List.filterMap_cons, hn]
          exact hsub.cons₂ n

/-- C8 (amended): provided the wall clock strictly increases across the
trace events that sample it, the allocated turn ids are pairwise strictly
increasing in allocation order, hence unique.  Without that proviso the
claim fails: a turn-complete handled in the same millisecond as the turn
start allocates an equal id and the transcript merges the two turns (see
the counterexample). -/
theorem c8_turn_ids_increasing (evs : List Ev)
    (hmono : List.Pairwise (· < ·) (nowsOf evs)) :
    List.Pairwise (· < ·) ((runState initState evs).creationIds) ∧
    ((runState initState evs).creationIds).Nodup := by
  obtain ⟨X, hX, hsub⟩ := creationIds_sublist evs initState
  have hX2 : (runState initState evs).creationIds = X := by
    rw [hX]
    rfl
  rw [hX2]
  have hp := hmono.sublist hsub
  exact ⟨hp, hp.imp ne_of_lt⟩

/-- Witness for C8: a start at clock 1 and a turn completion at clock 2
allocate the ids 1 and 2, strictly increasing. -/
theorem c8_turn_ids_increasing_witness :
    List.Pairwise (· < ·) ((runState initState [Ev.uStart true 1, Ev.cOpen,
      Ev.cMessage ⟨none, none, none, true, false, 2, 0⟩]).creationIds) ∧
    ((runState initState [Ev.uStart true 1, Ev.cOpen,
      Ev.cMessage ⟨none, none, none, true, false, 2, 0⟩]).creationIds).Nodup :=
  c8_turn_ids_increasing [Ev.uStart true 1, Ev.cOpen,
    Ev.cMessage ⟨none, none, none, true, false, 2, 0⟩] (by with_unfolding_all decide)

/-- Counterexample to C8 as stated: a turn-complete arriving with the wall
clock still at 5 allocates the id 5 again — the allocation order [5, 5] is
neither strictly increasing nor unique, and the transcript merges the two
turns into a single one left marked incomplete. -/
theorem c8_counterexample :
    okTrace initState [Ev.uStart true 5, Ev.cOpen,
      Ev.cMessage ⟨none, none, none, true, false, 5, 0⟩] = true ∧
    (runState initState [Ev.uStart true 5, Ev.cOpen,
      Ev.cMessage ⟨none, none, none, true, false, 5, 0⟩]).creationIds = [5, 5] ∧
    ¬ List.Pairwise (· < ·) [5, 5] ∧
    (runState initState [Ev.uStart true 5, Ev.cOpen,
      Ev.cMessage ⟨none, none, none, true, false, 5, 0⟩]).transcript
      = [⟨5, "", "", false⟩] := by
  exact ⟨by with_unfolding_all decide, by with_unfolding_all decide,
    by decide, by with_unfolding_all decide⟩
